import Mathlib

/-
Verification of the OpenKlavdii core components against their specification.

The development shallowly embeds the Python modules src/core/file_tracker.py,
src/core/session_manager.py, src/core/opencode_proxy.py and
src/core/archive_utils.py.  Filesystem and subprocess effects are made explicit
as inputs: a directory walk becomes the list of (path, hash) pairs it visits, a
subprocess run becomes a record of what the child did.  Python dicts whose
iteration order matters are lists of pairs; Python sets are Finsets or pattern
lists when only membership is used.
-/

namespace FileTracker

/-- Fixed exclusion patterns of FileChangeTracker._exclude_patterns
(file_tracker.py lines 20-24).  The Python value is a set literal; only
membership via the any-pattern loop is ever used, so a list is an adequate
embedding. -/
def exclude_patterns : List String :=
  ["__pycache__", ".git", ".env", ".DS_Store", "Thumbs.db",
   "*.pyc", "*.pyo", "*.swp", ".vscode", ".idea", "node_modules",
   ".gitignore", ".gitmodules", ".hg", ".svn", ".bzr"]

/-- Python substring containment (pattern in path_str) on character lists. -/
def isSubListOf : List Char → List Char → Bool
  | pat, [] => pat.isEmpty
  | pat, c :: rest => pat.isPrefixOf (c :: rest) || isSubListOf pat rest

/-- Python str.startswith on the character lists of the two strings. -/
def startswith (s pre : String) : Bool :=
  pre.toList.isPrefixOf s.toList

/-- Paths are represented by their component lists; str(filepath) joins the
components with the separator. -/
def pathStr (filepath : List String) : String :=
  String.intercalate "/" filepath

/-- pathlib name: the final path component. -/
def pathName (filepath : List String) : String :=
  filepath.getLastD ""

/-- pathlib suffix of the final component: the part from the last dot on,
provided that dot is neither the first nor the last character (the cpython
rule: i = name.rfind('.'); name[i:] if 0 < i < len(name)-1 else ''). -/
def pathSuffix (name : String) : String :=
  let cs := name.toList
  let dotIdxs := (List.range cs.length).filter (fun i => cs.getD i ' ' == '.')
  match dotIdxs.getLast? with
  | some i => if 0 < i && i < cs.length - 1 then String.mk (cs.drop i) else ""
  | none => ""

/-- FileChangeTracker._should_exclude (file_tracker.py lines 26-44): a file is
excluded when some pattern occurs as a substring of the whole path string, or
its extension is .pyc/.pyo/.swp, or its final name starts with a dot. -/
def should_exclude (filepath : List String) : Bool :=
  let path_str := pathStr filepath
  if exclude_patterns.any (fun pattern => isSubListOf pattern.toList path_str.toList) then true
  else if pathSuffix (pathName filepath) ∈ [".pyc", ".pyo", ".swp"] then true
  else if startswith (pathName filepath) "." then true
  else false

/-- FileChangeTracker._get_file_hashes (file_tracker.py lines 59-71): walk the
session folder and hash each regular non-excluded file.  The rglob walk is
abstracted as the input list of (path, md5) pairs for the regular files the
walk visits; the function keeps exactly the non-excluded ones. -/
def get_file_hashes (files : List (List String × String)) : List (List String × String) :=
  files.filter (fun f => !should_exclude f.1)

/-- Result shape of take_after_snapshot.  The key type abstracts the path
representation: the source stores absolute paths in the snapshots and converts
each to a session-relative string with relative_to, an injective renaming. -/
structure FileChanges (α : Type) where
  created : List α
  modified : List α
  all : List α

/-- Dict lookup on a snapshot represented as a key-value list. -/
def lookup {α : Type} [DecidableEq α] (snap : List (α × String)) (k : α) : Option String :=
  (snap.find? (fun p => decide (p.1 = k))).map (fun p => p.2)

/-- Diff computation of take_after_snapshot (file_tracker.py lines 85-108):
created are the after-keys absent from the before snapshot, modified the
after-keys present in before with a different hash, and all is the
concatenation created + modified. -/
def snapshot_diff {α : Type} [DecidableEq α]
    (before after : List (α × String)) : FileChanges α :=
  let created := (after.filter (fun p => (lookup before p.1).isNone)).map (fun p => p.1)
  let modified := (after.filter (fun p =>
      match lookup before p.1 with
      | some before_hash => decide (p.2 ≠ before_hash)
      | none => false)).map (fun p => p.1)
  { created := created, modified := modified, all := created ++ modified }

/-- FileChangeTracker state: the stored before snapshot (__init__ starts it
empty, file_tracker.py line 19). -/
structure FileChangeTracker (α : Type) where
  before_snapshot : List (α × String)

/-- Fresh tracker as built by __init__. -/
def FileChangeTracker.init {α : Type} : FileChangeTracker α :=
  { before_snapshot := [] }

/-- take_before_snapshot (file_tracker.py lines 73-77) stores the walk result. -/
def FileChangeTracker.take_before_snapshot {α : Type}
    (t : FileChangeTracker α) (hashes : List (α × String)) : FileChangeTracker α :=
  { t with before_snapshot := hashes }

/-- take_after_snapshot (file_tracker.py lines 79-112): diff the stored before
snapshot against the fresh walk, then clear the stored snapshot. -/
def FileChangeTracker.take_after_snapshot {α : Type} [DecidableEq α]
    (t : FileChangeTracker α) (after : List (α × String)) :
    FileChanges α × FileChangeTracker α :=
  (snapshot_diff t.before_snapshot after, { t with before_snapshot := [] })

end FileTracker

namespace OpenCodeProxy

/-- Provider catalog entry as read from the agent (opencode_proxy.py
get_providers): an identifier and the keys of its model mapping in insertion
order. -/
structure Provider where
  id : String
  models : List String
deriving DecidableEq

/-- Shape of the providers response: the all list and the connected id list. -/
structure ProvidersData where
  all : List Provider
  connected : List String
deriving DecidableEq

/-- get_default_provider (opencode_proxy.py lines 96-112): empty strings when
nothing is connected; otherwise the first connected id paired with the first
model key of the first provider in the all list carrying that id, or an empty
model string if that provider is absent or has no models. -/
def get_default_provider (d : ProvidersData) : String × String :=
  match d.connected with
  | [] => ("", "")
  | first_connected_id :: _ =>
    match d.all.find? (fun p => decide (p.id = first_connected_id)) with
    | some p =>
      match p.models with
      | [] => (first_connected_id, "")
      | first_model :: _ => (first_connected_id, first_model)
    | none => (first_connected_id, "")

/-- Result of merging the tracker diff with the proxy's moved-file list.  The
source builds Python sets, so Finsets. -/
structure CombinedFiles where
  created : Finset String
  modified : Finset String
  all : Finset String
deriving DecidableEq

/-- Merge block shared by generate_code, debug_code and refactor_code
(opencode_proxy.py lines 422-438, 512-527, 601-616): all is the set union of
the tracker's all list and the moved files; created starts from the tracker's
created set and then each moved file not in all_detected_files is inserted. -/
def combine_file_changes (file_changes : FileTracker.FileChanges String)
    (moved_files : List String) : CombinedFiles :=
  let all_detected_files := (file_changes.all ++ moved_files).toFinset
  let created_detected := file_changes.created.toFinset
  let modified_detected := file_changes.modified.toFinset
  let created_final := moved_files.foldl
    (fun acc moved_file =>
      if moved_file ∈ all_detected_files then acc else insert moved_file acc)
    created_detected
  { created := created_final, modified := modified_detected, all := all_detected_files }

/-- Timeout passed to asyncio.wait_for around process.wait()
(opencode_proxy.py line 237). -/
def cliTimeout : Nat := 300

/-- Timeout branch response text (opencode_proxy.py lines 324-329). -/
def timeout_response : String :=
  "❌ OpenCode request timed out after 120 seconds.\n\nThe request took too long to complete. This could be due to:\n1. Complex code generation task\n2. Network issues\n3. OpenCode server busy\n\nTry a simpler request or try again later."

/-- Non-zero exit response text (opencode_proxy.py lines 245-250); the source
quotes the word opencode, the quote characters are elided here. -/
def cli_failed_response (stderr_text : String) : String :=
  "❌ OpenCode CLI command failed.\n\nError: " ++ stderr_text.take 200 ++
    "\n\nPlease ensure OpenCode is installed and accessible via the opencode command."

/-- Generic exception response text (opencode_proxy.py lines 330-337). -/
def unexpected_error_response (msg : String) : String :=
  "❌ Unexpected error running OpenCode command.\n\nError: " ++ msg.take 200 ++
    "\n\nPlease check OpenCode installation and try again."

/-- One run of the external CLI child, as observed by _send_message_via_cli.
read_seconds is the wall time until both the stdout and the stderr reader hit
end of file: the source awaits asyncio.gather(read_stdout(), read_stderr())
with no timeout around it (lines 230-234).  wait_seconds is the additional
wall time process.wait() takes after that; only this await is wrapped in
asyncio.wait_for with the 300 second timeout (line 237), so the TimeoutError
branch fires exactly when wait_seconds exceeds the timeout.  raises_exc
abstracts any other exception escaping the try block. -/
structure CliRun where
  has_telegram_session : Bool
  original_cwd_exists : Bool
  read_seconds : Nat
  wait_seconds : Nat
  raises_exc : Option String
  returncode : Int
  stderr_text : String
  success_response : String

/-- Normalized result of _send_message_via_cli: the user-facing response, the
error flag (a missing error key on the success dict is falsy, hence false),
and whether the finally block undid the chdir into the session folder. -/
structure CliResult where
  response : String
  error : Bool
  cwd_restored : Bool

/-- Total wall time of the invocation. -/
def cli_total_seconds (r : CliRun) : Nat :=
  r.read_seconds + r.wait_seconds

/-- Control-flow skeleton of _send_message_via_cli (opencode_proxy.py lines
143-342).  The finally block restores the working directory only when a chdir
was made (telegram_session_id given) and the original directory still exists;
when no chdir was made there is nothing to undo, modelled as restored. -/
def send_message_via_cli (r : CliRun) : CliResult :=
  let cwd_changed := r.has_telegram_session
  let restored := !cwd_changed || r.original_cwd_exists
  match r.raises_exc with
  | some msg =>
    { response := unexpected_error_response msg, error := true, cwd_restored := restored }
  | none =>
    if cliTimeout < r.wait_seconds then
      { response := timeout_response, error := true, cwd_restored := restored }
    else if r.returncode ≠ 0 then
      { response := cli_failed_response r.stderr_text, error := true, cwd_restored := restored }
    else
      { response := r.success_response, error := false, cwd_restored := restored }

end OpenCodeProxy

namespace SessionManager

/-- Per-user preference dict (session_manager.py line 18): each of the three
keys may be absent. -/
structure Prefs where
  provider_id : Option String
  model_id : Option String
  show_thinking : Option Bool
deriving DecidableEq

/-- SessionManager state (session_manager.py lines 13-19).  Session records
carry no data relevant to the claims beyond their identifier, so a user's
sessions are the list of identifiers in insertion order.  uuid4 generation is
modelled by a monotone counter next_id: each draw is fresh, which is the
distinctness guarantee uuid4 provides. -/
structure SMState where
  sessions : Nat → List Nat
  active_sessions : Nat → Option Nat
  user_preferences : Nat → Option Prefs
  next_id : Nat

/-- Initial state: all three dicts empty. -/
def SMState.init : SMState :=
  { sessions := fun _ => [], active_sessions := fun _ => none,
    user_preferences := fun _ => none, next_id := 0 }

/-- create_session (session_manager.py lines 21-42): draw a fresh identifier,
record the session under the user and make it the user's active session. -/
def create_session (st : SMState) (user_id : Nat) : Nat × SMState :=
  let session_id := st.next_id
  (session_id,
    { st with
      sessions := fun u =>
        if u = user_id then st.sessions user_id ++ [session_id] else st.sessions u,
      active_sessions := fun u =>
        if u = user_id then some session_id else st.active_sessions u,
      next_id := st.next_id + 1 })

/-- switch_session (session_manager.py lines 59-63): only when the session id
is recorded under this very user is the active pointer moved; otherwise the
state is left untouched and false returned.  The Python guard user_id in
self.sessions and session_id in self.sessions[user_id] collapses to list
membership because an absent user maps to the empty list here. -/
def switch_session (st : SMState) (user_id session_id : Nat) : Bool × SMState :=
  if session_id ∈ st.sessions user_id then
    (true,
      { st with active_sessions := fun u =>
          if u = user_id then some session_id else st.active_sessions u })
  else
    (false, st)

/-- set_user_preference (session_manager.py lines 66-70): create the user's
dict if missing, then set both provider_id and model_id. -/
def set_user_preference (st : SMState) (user_id : Nat) (provider_id model_id : String) :
    SMState :=
  let prefs := (st.user_preferences user_id).getD ⟨none, none, none⟩
  { st with user_preferences := fun u =>
      if u = user_id then
        some { prefs with provider_id := some provider_id, model_id := some model_id }
      else st.user_preferences u }

/-- set_thinking_preference (session_manager.py lines 85-88): create the
user's dict if missing, then set show_thinking. -/
def set_thinking_preference (st : SMState) (user_id : Nat) (enabled : Bool) : SMState :=
  let prefs := (st.user_preferences user_id).getD ⟨none, none, none⟩
  { st with user_preferences := fun u =>
      if u = user_id then some { prefs with show_thinking := some enabled }
      else st.user_preferences u }

/-- get_user_preference (session_manager.py lines 72-83).  When the user has
no preference dict at all, the live default-provider lookup is delegated to
the proxy; the catalog that lookup would see is the explicit argument.  When a
dict exists, only the provider_id and model_id keys that are present are
returned (an absent key is none).  The method never writes, so the state after
the call is returned unchanged alongside the result. -/
def get_user_preference (st : SMState) (user_id : Nat)
    (catalog : OpenCodeProxy.ProvidersData) :
    (Option String × Option String) × SMState :=
  match st.user_preferences user_id with
  | none =>
    let default := OpenCodeProxy.get_default_provider catalog
    ((some default.1, some default.2), st)
  | some prefs => ((prefs.provider_id, prefs.model_id), st)

/-- One mutating call on the store. -/
inductive Step : SMState → SMState → Prop where
  | create (u : Nat) (σ : SMState) : Step σ (create_session σ u).2
  | switch (u sid : Nat) (σ : SMState) : Step σ (switch_session σ u sid).2
  | setPref (u : Nat) (pid mid : String) (σ : SMState) :
      Step σ (set_user_preference σ u pid mid)
  | setThinking (u : Nat) (b : Bool) (σ : SMState) :
      Step σ (set_thinking_preference σ u b)

/-- States reachable from the freshly constructed store. -/
inductive Reachable : SMState → Prop where
  | init : Reachable SMState.init
  | step {σ σ' : SMState} : Reachable σ → Step σ σ' → Reachable σ'

end SessionManager

namespace ArchiveCreator

/-- MAX_ARCHIVE_SIZE (archive_utils.py line 20): 45 MB, used both as the
per-file cap and as the total estimated-size cap. -/
def MAX_ARCHIVE_SIZE : Nat := 45 * 1024 * 1024

/-- One candidate of the file_paths argument together with the two filesystem
facts the loop consults: abs_path.exists() and abs_path.stat().st_size. -/
structure CandidateFile where
  rel_path : String
  on_disk : Bool
  size : Nat
deriving DecidableEq

/-- Body of the for-loop of create_session_archive (archive_utils.py lines
54-82): skip missing files, skip files over the per-file cap, break once the
conservative estimate (accumulated actual bytes plus half the next file's
size) would exceed the total cap, otherwise add the file and account its
bytes.  The zipf.write call itself is abstracted as succeeding; the archive
content is the list of files added. -/
def archive_loop : List CandidateFile → Nat → Nat → List CandidateFile →
    Nat × List CandidateFile
  | [], files_added, _total_size, acc => (files_added, acc)
  | f :: rest, files_added, total_size, acc =>
    if !f.on_disk then archive_loop rest files_added total_size acc
    else if MAX_ARCHIVE_SIZE < f.size then archive_loop rest files_added total_size acc
    else if MAX_ARCHIVE_SIZE < total_size + f.size / 2 then (files_added, acc)
    else archive_loop rest (files_added + 1) (total_size + f.size) (acc ++ [f])

/-- create_session_archive (archive_utils.py lines 39-98): no archive on an
empty candidate list or when zero files were added, otherwise the archive
content with the count of files added.  The generated archive name is a
timestamp and is not modelled. -/
def create_session_archive (file_paths : List CandidateFile) :
    Option (List CandidateFile) × Nat :=
  match file_paths with
  | [] => (none, 0)
  | _ :: _ =>
    let r := archive_loop file_paths 0 0 []
    if r.1 = 0 then (none, 0) else (some r.2, r.1)

/-- Sum of the actual sizes of a list of files (the running total_size). -/
def size_sum (files : List CandidateFile) : Nat :=
  (files.map (fun f => f.size)).sum

/-- The conjunction of the two skip guards of the loop: the candidate exists
on disk and does not exceed the per-file cap.  Candidates failing this are
skipped with continue; qualifying ones are either added or hit the break. -/
def qualifies (f : CandidateFile) : Bool :=
  f.on_disk && decide (f.size ≤ MAX_ARCHIVE_SIZE)

end ArchiveCreator

/- Concrete inputs used by counterexamples and witnesses. -/

/-- Tracker diff in which nothing was observed (claim C1 input). -/
def c1_empty_changes : FileTracker.FileChanges String :=
  { created := [], modified := [], all := [] }

/-- A CLI run whose child holds its output pipes open for 1000 seconds and
then exits cleanly at once (claim C2 input). -/
def c2_slow_read_run : OpenCodeProxy.CliRun :=
  { has_telegram_session := true, original_cwd_exists := true,
    read_seconds := 1000, wait_seconds := 0, raises_exc := none,
    returncode := 0, stderr_text := "", success_response := "ok" }

/-- Catalog with one connected provider owning one model (claim C3 input). -/
def c3_catalog : OpenCodeProxy.ProvidersData :=
  { all := [{ id := "prov", models := ["mod"] }], connected := ["prov"] }

/-- Store in which user 5 has only ever set the thinking flag (claim C3
input). -/
def c3_state : SessionManager.SMState :=
  SessionManager.set_thinking_preference SessionManager.SMState.init 5 true

/-- A file inside a hidden directory of the session folder (claim C4 input). -/
def c4_hidden_file : List String :=
  ["work_place", "s1", ".secret", "data.txt"]

/-- The spec's own excluded example .git/config (claim C4 witness input). -/
def c4_git_file : List String :=
  ["work_place", "s1", ".git", "config"]

/-- Before snapshot for the claim C5 witness. -/
def c5_before : List (String × String) :=
  [("b.py", "h1"), ("c.py", "h2")]

/-- After snapshot for the claim C5 witness: a.py added, b.py rewritten,
c.py untouched. -/
def c5_after : List (String × String) :=
  [("a.py", "ha"), ("b.py", "h1x"), ("c.py", "h2")]

/-- Store after one creation by user 1 (claim C7 witness input). -/
def c7_state : SessionManager.SMState :=
  (SessionManager.create_session SessionManager.SMState.init 1).2

/-- A sole candidate file exceeding the per-file cap (claim C8 witness
input). -/
def c8_big : ArchiveCreator.CandidateFile :=
  { rel_path := "big.bin", on_disk := true, size := ArchiveCreator.MAX_ARCHIVE_SIZE + 1 }

/-- Catalog whose connected list is empty (claim C9 witness input). -/
def c9_empty_catalog : OpenCodeProxy.ProvidersData :=
  { all := [{ id := "openai", models := ["gpt"] }], connected := [] }

/- Theorems. -/

/-- Membership in the created list of a diff: exactly the after-keys absent
from the before snapshot. -/
lemma mem_created_iff {α : Type} [DecidableEq α]
    (before after : List (α × String)) (p : α) :
    p ∈ (FileTracker.snapshot_diff before after).created ↔
      ∃ h, (p, h) ∈ after ∧ FileTracker.lookup before p = none := by
  simp only [FileTracker.snapshot_diff, List.mem_map, List.mem_filter]
  constructor
  · rintro ⟨⟨a, b⟩, ⟨hmem, hcond⟩, rfl⟩
    refine ⟨b, hmem, ?_⟩
    simpa [Option.isNone_iff_eq_none] using hcond
  · rintro ⟨h, hmem, hnone⟩
    exact ⟨(p, h), ⟨hmem, by simp [hnone]⟩, rfl⟩

/-- Membership in the modified list of a diff: exactly the after-keys present
in the before snapshot under a different hash. -/
lemma mem_modified_iff {α : Type} [DecidableEq α]
    (before after : List (α × String)) (p : α) :
    p ∈ (FileTracker.snapshot_diff before after).modified ↔
      ∃ h bh, (p, h) ∈ after ∧ FileTracker.lookup before p = some bh ∧ h ≠ bh := by
  simp only [FileTracker.snapshot_diff, List.mem_map, List.mem_filter]
  constructor
  · rintro ⟨⟨a, b⟩, ⟨hmem, hcond⟩, rfl⟩
    cases hl : FileTracker.lookup before a with
    | none => rw [hl] at hcond; simp at hcond
    | some bh =>
      rw [hl] at hcond
      exact ⟨b, bh, hmem, rfl, by simpa using hcond⟩
  · rintro ⟨h, bh, hmem, hsome, hne⟩
    exact ⟨(p, h), ⟨hmem, by rw [hsome]; simpa using hne⟩, rfl⟩

/-- The all list of a diff is the concatenation of created and modified. -/
lemma diff_all_eq {α : Type} [DecidableEq α] (before after : List (α × String)) :
    (FileTracker.snapshot_diff before after).all =
      (FileTracker.snapshot_diff before after).created ++
      (FileTracker.snapshot_diff before after).modified := rfl

/-- C1, evaluation at the failing input: merging an empty tracker diff with
the moved-file list a.py puts a.py into all but not into created, because the
membership test guarding the created insertion runs against
all_detected_files, a set that already contains every moved file.  The claim
(and the source comment above the loop) require a.py in created here. -/
theorem moved_file_never_marked_created :
    "a.py" ∈ (OpenCodeProxy.combine_file_changes c1_empty_changes ["a.py"]).all ∧
    (OpenCodeProxy.combine_file_changes c1_empty_changes ["a.py"]).created = ∅ := by
  constructor
  · decide
  · decide

/-- C2, evaluation at the failing input: a run whose reads take 1000 seconds
with an immediate exit afterwards finishes without error although the whole
invocation lasted far beyond the 300 second timeout, because only
process.wait() is wrapped in asyncio.wait_for while the stdout/stderr readers
are awaited with no bound.  The working directory is still restored by the
finally block. -/
theorem slow_reads_escape_timeout :
    OpenCodeProxy.cliTimeout < OpenCodeProxy.cli_total_seconds c2_slow_read_run ∧
    (OpenCodeProxy.send_message_via_cli c2_slow_read_run).error = false ∧
    (OpenCodeProxy.send_message_via_cli c2_slow_read_run).cwd_restored = true := by
  refine ⟨by decide, ?_, ?_⟩ <;> rfl

/-- C3, counterexample: user 5 has stored only the thinking flag, so the
preferences entry exists and get_user_preference returns a result with no
provider and no model instead of the live default the catalog resolves to. -/
theorem thinking_only_user_gets_empty_preference :
    c3_state.user_preferences 5 =
      some ⟨none, none, some true⟩ ∧
    OpenCodeProxy.get_default_provider c3_catalog = ("prov", "mod") ∧
    (SessionManager.get_user_preference c3_state 5 c3_catalog).1 = (none, none) ∧
    (SessionManager.get_user_preference c3_state 5 c3_catalog).1 ≠
      (some "prov", some "mod") := by
  refine ⟨rfl, rfl, rfl, by decide⟩

/-- C3 as amended: the live default is returned exactly when the user has no
stored preferences entry at all; a user whose entry carries only the thinking
flag gets a result with neither provider nor model; and the call never writes
to the store. -/
theorem get_user_preference_fallback (st : SessionManager.SMState) (u : Nat)
    (catalog : OpenCodeProxy.ProvidersData) :
    (st.user_preferences u = none →
      (SessionManager.get_user_preference st u catalog).1 =
        (some (OpenCodeProxy.get_default_provider catalog).1,
         some (OpenCodeProxy.get_default_provider catalog).2)) ∧
    (∀ b, st.user_preferences u = some ⟨none, none, b⟩ →
      (SessionManager.get_user_preference st u catalog).1 = (none, none)) ∧
    (SessionManager.get_user_preference st u catalog).2 = st := by
  refine ⟨?_, ?_, ?_⟩
  · intro h
    simp [SessionManager.get_user_preference, h]
  · intro b h
    simp [SessionManager.get_user_preference, h]
  · cases h : st.user_preferences u <;>
      simp [SessionManager.get_user_preference, h]

/-- C3 witness: a user absent from the preferences store receives the
catalog's default provider and model. -/
theorem get_user_preference_fallback_witness :
    SessionManager.SMState.init.user_preferences 9 = none ∧
    (SessionManager.get_user_preference SessionManager.SMState.init 9 c3_catalog).1 =
      (some "prov", some "mod") :=
  ⟨rfl, (get_user_preference_fallback SessionManager.SMState.init 9 c3_catalog).1 rfl⟩

/-- C9: get_default_provider never fails: an empty connected list yields empty
provider and model identifiers; a non-empty one yields the first connected
identifier, together with the head of that provider's model list when a
provider with that identifier is present in the all list, and an empty model
string when none is. -/
theorem get_default_provider_total (d : OpenCodeProxy.ProvidersData) :
    (d.connected = [] → OpenCodeProxy.get_default_provider d = ("", "")) ∧
    (∀ c rest, d.connected = c :: rest →
      (OpenCodeProxy.get_default_provider d).1 = c ∧
      ((∃ p, p ∈ d.all ∧ p.id = c ∧
          (OpenCodeProxy.get_default_provider d).2 = p.models.headD "") ∨
       ((∀ p ∈ d.all, p.id ≠ c) ∧ (OpenCodeProxy.get_default_provider d).2 = ""))) := by
  constructor
  · intro h
    simp [OpenCodeProxy.get_default_provider, h]
  · intro c rest hc
    cases hfind : d.all.find? (fun p => decide (p.id = c)) with
    | none =>
      have hall : ∀ p ∈ d.all, p.id ≠ c := by
        intro p hp
        have := List.find?_eq_none.mp hfind p hp
        simpa using this
      constructor
      · simp [OpenCodeProxy.get_default_provider, hc, hfind]
      · right
        refine ⟨hall, ?_⟩
        simp [OpenCodeProxy.get_default_provider, hc, hfind]
    | some p =>
      have hmem : p ∈ d.all := List.mem_of_find?_eq_some hfind
      have hid : p.id = c := by
        have := List.find?_some hfind
        simpa using this
      constructor
      · cases hm : p.models <;>
          simp [OpenCodeProxy.get_default_provider, hc, hfind, hm]
      · left
        refine ⟨p, hmem, hid, ?_⟩
        cases hm : p.models <;>
          simp [OpenCodeProxy.get_default_provider, hc, hfind, hm]

/-- C9 witness: on the catalog with nothing connected the default is the pair
of empty strings. -/
theorem get_default_provider_total_witness :
    c9_empty_catalog.connected = [] ∧
    OpenCodeProxy.get_default_provider c9_empty_catalog = ("", "") :=
  ⟨rfl, (get_default_provider_total c9_empty_catalog).1 rfl⟩

/-- C5: for every pair of before and after snapshots whose after walk visited
pairwise distinct paths, created is exactly the set of paths present after and
absent before, modified exactly the set of paths present in both whose hash
differs, no path lies in both lists, a path whose hash is unchanged lies in
neither, and all is the duplicate-free union of created and modified. -/
theorem snapshot_diff_correct {α : Type} [DecidableEq α]
    (before after : List (α × String))
    (hnodup : (after.map Prod.fst).Nodup) :
    (∀ p, p ∈ (FileTracker.snapshot_diff before after).created ↔
        ∃ h, (p, h) ∈ after ∧ FileTracker.lookup before p = none) ∧
    (∀ p, p ∈ (FileTracker.snapshot_diff before after).modified ↔
        ∃ h bh, (p, h) ∈ after ∧ FileTracker.lookup before p = some bh ∧ h ≠ bh) ∧
    (∀ p, ¬ (p ∈ (FileTracker.snapshot_diff before after).created ∧
             p ∈ (FileTracker.snapshot_diff before after).modified)) ∧
    (∀ p h, (p, h) ∈ after → FileTracker.lookup before p = some h →
        p ∉ (FileTracker.snapshot_diff before after).all) ∧
    (FileTracker.snapshot_diff before after).all.Nodup ∧
    (∀ p, p ∈ (FileTracker.snapshot_diff before after).all ↔
        p ∈ (FileTracker.snapshot_diff before after).created ∨
        p ∈ (FileTracker.snapshot_diff before after).modified) := by
  have hdisj : ∀ p, p ∈ (FileTracker.snapshot_diff before after).created →
      p ∈ (FileTracker.snapshot_diff before after).modified → False := by
    intro p hc hm
    obtain ⟨h, _, hnone⟩ := (mem_created_iff before after p).mp hc
    obtain ⟨h', bh, _, hsome, _⟩ := (mem_modified_iff before after p).mp hm
    rw [hnone] at hsome
    exact Option.noConfusion hsome
  have hcrn : (FileTracker.snapshot_diff before after).created.Nodup := by
    have hsub : (FileTracker.snapshot_diff before after).created.Sublist
        (after.map Prod.fst) :=
      (List.filter_sublist after).map Prod.fst
    exact List.Nodup.sublist hsub hnodup
  have hmon : (FileTracker.snapshot_diff before after).modified.Nodup := by
    have hsub : (FileTracker.snapshot_diff before after).modified.Sublist
        (after.map Prod.fst) :=
      (List.filter_sublist after).map Prod.fst
    exact List.Nodup.sublist hsub hnodup
  refine ⟨mem_created_iff before after, mem_modified_iff before after,
          fun p hpm => hdisj p hpm.1 hpm.2, ?_, ?_, ?_⟩
  · intro p h hmem hsame hall
    rw [diff_all_eq] at hall
    rcases List.mem_append.mp hall with hc | hm
    · obtain ⟨h', _, hnone⟩ := (mem_created_iff before after p).mp hc
      rw [hnone] at hsame
      exact Option.noConfusion hsame
    · obtain ⟨h', bh, hmem', hsome, hne⟩ := (mem_modified_iff before after p).mp hm
      have hbh : bh = h := by
        rw [hsome] at hsame
        exact (Option.some.injEq bh h).mp hsame
      have hhh : (p, h') = (p, h) :=
        List.inj_on_of_nodup_map hnodup hmem' hmem rfl
      have : h' = h := (Prod.mk.injEq p h' p h).mp hhh |>.2
      exact hne (this.trans hbh.symm)
  · rw [diff_all_eq]
    exact List.Nodup.append hcrn hmon (fun a ha hb => hdisj a ha hb)
  · intro p
    rw [diff_all_eq]
    exact List.mem_append

/-- C5 witness: with b.py and c.py present before, and after showing a.py
fresh, b.py rewritten and c.py unchanged, a.py is created, b.py modified and
c.py absent from all. -/
theorem snapshot_diff_correct_witness :
    (c5_after.map Prod.fst).Nodup ∧
    ("a.py" ∈ (FileTracker.snapshot_diff c5_before c5_after).created ∧
     "b.py" ∈ (FileTracker.snapshot_diff c5_before c5_after).modified ∧
     "c.py" ∉ (FileTracker.snapshot_diff c5_before c5_after).all) :=
  ⟨by decide,
   by decide,
   by decide,
   (snapshot_diff_correct c5_before c5_after (by decide)).2.2.2.1 "c.py" "h2"
     (by decide) rfl⟩

/-- C10: a take_after_snapshot call on a tracker whose stored before snapshot
is empty (a fresh tracker, or one whose previous after call cleared it)
reports every walked file as created and nothing as modified, and every
take_after_snapshot call leaves the stored before snapshot empty. -/
theorem tracker_reset_and_fresh_created {α : Type} [DecidableEq α]
    (t : FileTracker.FileChangeTracker α) (after : List (α × String)) :
    (t.before_snapshot = [] →
      ((t.take_after_snapshot after).1.created = after.map Prod.fst ∧
       (t.take_after_snapshot after).1.modified = [])) ∧
    (t.take_after_snapshot after).2.before_snapshot = [] := by
  constructor
  · intro h
    constructor
    · simp [FileTracker.FileChangeTracker.take_after_snapshot,
            FileTracker.snapshot_diff, FileTracker.lookup, h]
    · simp [FileTracker.FileChangeTracker.take_after_snapshot,
            FileTracker.snapshot_diff, FileTracker.lookup, h]
  · rfl

/-- C10 witness: the fresh tracker reports the single walked file as created. -/
theorem tracker_reset_and_fresh_created_witness :
    (FileTracker.FileChangeTracker.init : FileTracker.FileChangeTracker String).before_snapshot
        = [] ∧
    ((FileTracker.FileChangeTracker.init :
        FileTracker.FileChangeTracker String).take_after_snapshot
        [("x.py", "h")]).1.created = ["x.py"] :=
  ⟨rfl,
   ((tracker_reset_and_fresh_created FileTracker.FileChangeTracker.init
       [("x.py", "h")]).1 rfl).1⟩

/-- C4, counterexample: data.txt inside the hidden directory .secret of the
session folder has a path component starting with a dot, yet _should_exclude
accepts it (only the final name is tested for a leading dot, and no fixed
pattern occurs in the path), so it shows up in the snapshot and in the
created diff. -/
theorem hidden_directory_file_is_tracked :
    ".secret" ∈ c4_hidden_file ∧
    FileTracker.startswith ".secret" "." = true ∧
    FileTracker.should_exclude c4_hidden_file = false ∧
    c4_hidden_file ∈ (FileTracker.snapshot_diff []
        (FileTracker.get_file_hashes [(c4_hidden_file, "h1")])).created := by
  refine ⟨by decide, by decide, by decide, by decide⟩

/-- C4 as amended: a file is excluded when one of the fixed patterns occurs as
a substring of its full path string, or its extension is .pyc, .pyo or .swp,
or its final name component starts with a dot; such a file never appears in
any snapshot built by the walk nor in the created, modified or all lists of
any diff, even when it is created between the before and after snapshots.  A
file inside a dot-directory is excluded only when one of those conditions
happens to hold for it. -/
theorem excluded_file_never_tracked
    (before files : List (List String × String)) (fp : List String)
    (hex : FileTracker.should_exclude fp = true) :
    (∀ h, (fp, h) ∉ FileTracker.get_file_hashes files) ∧
    fp ∉ (FileTracker.snapshot_diff before (FileTracker.get_file_hashes files)).created ∧
    fp ∉ (FileTracker.snapshot_diff before (FileTracker.get_file_hashes files)).modified ∧
    fp ∉ (FileTracker.snapshot_diff before (FileTracker.get_file_hashes files)).all := by
  have hsnap : ∀ h, (fp, h) ∉ FileTracker.get_file_hashes files := by
    intro h hmem
    have hcond := (List.mem_filter.mp hmem).2
    rw [hex] at hcond
    simp at hcond
  have hc : fp ∉ (FileTracker.snapshot_diff before
      (FileTracker.get_file_hashes files)).created := by
    intro hmem
    obtain ⟨h, hmem', _⟩ := (mem_created_iff before _ fp).mp hmem
    exact hsnap h hmem'
  have hm : fp ∉ (FileTracker.snapshot_diff before
      (FileTracker.get_file_hashes files)).modified := by
    intro hmem
    obtain ⟨h, _, hmem', _, _⟩ := (mem_modified_iff before _ fp).mp hmem
    exact hsnap h hmem'
  refine ⟨hsnap, hc, hm, ?_⟩
  intro hall
  rw [diff_all_eq] at hall
  rcases List.mem_append.mp hall with h | h
  · exact hc h
  · exact hm h

/-- C4 witness: .git/config is excluded and never appears in any diff. -/
theorem excluded_file_never_tracked_witness :
    FileTracker.should_exclude c4_git_file = true ∧
    c4_git_file ∉ (FileTracker.snapshot_diff []
        (FileTracker.get_file_hashes [(c4_git_file, "h")])).all :=
  ⟨by decide,
   (excluded_file_never_tracked [] [(c4_git_file, "h")] c4_git_file (by decide)).2.2.2⟩

/-- Store invariant: every recorded session identifier is below the fresh
counter, and the active pointer of any user names one of that user's own
sessions. -/
def SMInv (σ : SessionManager.SMState) : Prop :=
  (∀ u s, s ∈ σ.sessions u → s < σ.next_id) ∧
  (∀ u s, σ.active_sessions u = some s → s ∈ σ.sessions u)

/-- The initial store satisfies the invariant. -/
lemma smInv_init : SMInv SessionManager.SMState.init := by
  constructor <;> intro u s h <;> simp [SessionManager.SMState.init] at h

/-- Every mutating call preserves the invariant. -/
lemma smInv_step {σ σ' : SessionManager.SMState}
    (hσ : SMInv σ) (hstep : SessionManager.Step σ σ') : SMInv σ' := by
  cases hstep with
  | create u σ =>
    constructor
    · intro v s hmem
      simp only [SessionManager.create_session] at hmem ⊢
      by_cases hv : v = u
      · subst hv
        rw [if_pos rfl] at hmem
        rcases List.mem_append.mp hmem with h | h
        · exact Nat.lt_succ_of_lt (hσ.1 v s h)
        · simp at h
          omega
      · rw [if_neg hv] at hmem
        exact Nat.lt_succ_of_lt (hσ.1 v s hmem)
    · intro v s hact
      simp only [SessionManager.create_session] at hact ⊢
      by_cases hv : v = u
      · subst hv
        rw [if_pos rfl] at hact
        rw [if_pos rfl]
        have hs : s = σ.next_id := by
          simpa using hact.symm
        simp [hs]
      · rw [if_neg hv] at hact
        rw [if_neg hv]
        exact hσ.2 v s hact
  | switch u sid σ =>
    by_cases hmem : sid ∈ σ.sessions u
    · constructor
      · intro v s h
        simp only [SessionManager.switch_session, if_pos hmem] at h ⊢
        exact hσ.1 v s h
      · intro v s hact
        simp only [SessionManager.switch_session, if_pos hmem] at hact ⊢
        by_cases hv : v = u
        · subst hv
          rw [if_pos rfl] at hact
          have hs : s = sid := by simpa using hact.symm
          subst hs
          exact hmem
        · rw [if_neg hv] at hact
          exact hσ.2 v s hact
    · constructor
      · intro v s h
        simp only [SessionManager.switch_session, if_neg hmem] at h ⊢
        exact hσ.1 v s h
      · intro v s hact
        simp only [SessionManager.switch_session, if_neg hmem] at hact ⊢
        exact hσ.2 v s hact
  | setPref u pid mid σ =>
    exact ⟨fun v s h => hσ.1 v s h, fun v s h => hσ.2 v s h⟩
  | setThinking u b σ =>
    exact ⟨fun v s h => hσ.1 v s h, fun v s h => hσ.2 v s h⟩

/-- Every reachable store satisfies the invariant. -/
lemma smInv_reachable {σ : SessionManager.SMState}
    (h : SessionManager.Reachable σ) : SMInv σ := by
  induction h with
  | init => exact smInv_init
  | step _ hstep ih => exact smInv_step ih hstep

/-- C6: in every reachable store, a set active pointer names a session in the
same user's session list; create_session hands out an identifier recorded for
no user so far (freshness of the uuid draw, modelled by the counter) and makes
it the calling user's active session, superseding any prior pointer. -/
theorem create_session_fresh_and_active (σ : SessionManager.SMState)
    (hr : SessionManager.Reachable σ) :
    (∀ u s, σ.active_sessions u = some s → s ∈ σ.sessions u) ∧
    (∀ u v, (SessionManager.create_session σ u).1 ∉ σ.sessions v) ∧
    (∀ u, (SessionManager.create_session σ u).2.active_sessions u =
        some (SessionManager.create_session σ u).1) := by
  have hinv := smInv_reachable hr
  refine ⟨hinv.2, ?_, ?_⟩
  · intro u v hmem
    exact absurd (hinv.1 v _ hmem) (lt_irrefl σ.next_id)
  · intro u
    simp [SessionManager.create_session]

/-- C6 witness: in the initial store, creating a session for user 7 activates
the fresh identifier. -/
theorem create_session_fresh_and_active_witness :
    (SessionManager.create_session SessionManager.SMState.init 7).2.active_sessions 7 =
      some (SessionManager.create_session SessionManager.SMState.init 7).1 :=
  (create_session_fresh_and_active SessionManager.SMState.init
    SessionManager.Reachable.init).2.2 7

/-- C7: switch_session returns false and leaves the whole store untouched
whenever the identifier is not recorded under that user, and returns true,
pointing the user's active pointer at the identifier, when it is. -/
theorem switch_session_exact (σ : SessionManager.SMState) (u sid : Nat) :
    (sid ∉ σ.sessions u → SessionManager.switch_session σ u sid = (false, σ)) ∧
    (sid ∈ σ.sessions u →
      (SessionManager.switch_session σ u sid).1 = true ∧
      (SessionManager.switch_session σ u sid).2.active_sessions u = some sid) := by
  constructor
  · intro h
    simp [SessionManager.switch_session, h]
  · intro h
    constructor <;> simp [SessionManager.switch_session, h]

/-- C7 witness: in a store where user 1 owns a single session, switching user
1 to the never-created identifier 5 fails and returns the store unchanged. -/
theorem switch_session_exact_witness :
    5 ∉ c7_state.sessions 1 ∧
    SessionManager.switch_session c7_state 1 5 = (false, c7_state) :=
  ⟨by decide, (switch_session_exact c7_state 1 5).1 (by decide)⟩

/-- The archive loop only appends to its accumulator, every appended file was
present and within the per-file cap, and at each append the running estimate
(bytes so far plus half the file's size) was within the total cap. -/
lemma archive_loop_acc (cands : List ArchiveCreator.CandidateFile)
    (n total : Nat) (acc : List ArchiveCreator.CandidateFile) :
    ∃ tail,
      (ArchiveCreator.archive_loop cands n total acc).2 = acc ++ tail ∧
      (∀ f ∈ tail, f.on_disk = true ∧ f.size ≤ ArchiveCreator.MAX_ARCHIVE_SIZE) ∧
      (∀ pre f suf, tail = pre ++ f :: suf →
        total + ArchiveCreator.size_sum pre + f.size / 2 ≤
          ArchiveCreator.MAX_ARCHIVE_SIZE) := by
  induction cands generalizing n total acc with
  | nil =>
    refine ⟨[], by simp [ArchiveCreator.archive_loop], ?_, ?_⟩
    · intro f hf
      simp at hf
    · intro pre f suf h
      exact absurd h (by simp)
  | cons g rest ih =>
    by_cases h1 : g.on_disk = true
    · by_cases h2 : ArchiveCreator.MAX_ARCHIVE_SIZE < g.size
      · have hstep : ArchiveCreator.archive_loop (g :: rest) n total acc =
            ArchiveCreator.archive_loop rest n total acc := by
          simp [ArchiveCreator.archive_loop, h1, h2]
        rw [hstep]
        exact ih n total acc
      · by_cases h3 : ArchiveCreator.MAX_ARCHIVE_SIZE < total + g.size / 2
        · have hstep : (ArchiveCreator.archive_loop (g :: rest) n total acc).2 = acc := by
            simp [ArchiveCreator.archive_loop, h1, h2, h3]
          refine ⟨[], by simpa using hstep, ?_, ?_⟩
          · intro f hf
            simp at hf
          · intro pre f suf h
            exact absurd h (by simp)
        · have hstep : ArchiveCreator.archive_loop (g :: rest) n total acc =
              ArchiveCreator.archive_loop rest (n + 1) (total + g.size) (acc ++ [g]) := by
            simp [ArchiveCreator.archive_loop, h1, h2, h3]
          obtain ⟨tail', heq, hmem, hpre⟩ := ih (n + 1) (total + g.size) (acc ++ [g])
          refine ⟨g :: tail', ?_, ?_, ?_⟩
          · rw [hstep, heq, List.append_assoc]
            rfl
          · intro f hf
            rcases List.mem_cons.mp hf with rfl | hf'
            · exact ⟨h1, Nat.le_of_not_lt h2⟩
            · exact hmem f hf'
          · intro pre f suf hdec
            cases pre with
            | nil =>
              have hf : f = g := by
                simpa using congrArg (fun l => l.headD g) hdec.symm
              subst hf
              have := Nat.le_of_not_lt h3
              simpa [ArchiveCreator.size_sum] using this
            | cons p pre' =>
              have hp : g = p ∧ tail' = pre' ++ f :: suf := by
                have := hdec
                simp only [List.cons_append] at this
                exact ⟨(List.cons.injEq g tail' p _).mp this |>.1,
                       (List.cons.injEq g tail' p _).mp this |>.2⟩
              have hrec := hpre pre' f suf hp.2
              have hsz : ArchiveCreator.size_sum (p :: pre') =
                  g.size + ArchiveCreator.size_sum pre' := by
                rw [← hp.1]
                simp [ArchiveCreator.size_sum]
              rw [hsz]
              omega
    · have h1' : (!g.on_disk) = true := by
        simp [Bool.not_eq_true] at h1
        simp [h1]
      have hstep : ArchiveCreator.archive_loop (g :: rest) n total acc =
          ArchiveCreator.archive_loop rest n total acc := by
        simp [ArchiveCreator.archive_loop, h1']
      rw [hstep]
      exact ih n total acc

/-- When every candidate is missing or over the per-file cap the loop adds
nothing. -/
lemma archive_loop_all_skipped (cands : List ArchiveCreator.CandidateFile)
    (n total : Nat) (acc : List ArchiveCreator.CandidateFile)
    (h : ∀ f ∈ cands, f.on_disk = false ∨ ArchiveCreator.MAX_ARCHIVE_SIZE < f.size) :
    ArchiveCreator.archive_loop cands n total acc = (n, acc) := by
  induction cands generalizing n total acc with
  | nil => simp [ArchiveCreator.archive_loop]
  | cons g rest ih =>
    have hrest : ∀ f ∈ rest, f.on_disk = false ∨ ArchiveCreator.MAX_ARCHIVE_SIZE < f.size :=
      fun f hf => h f (List.mem_cons_of_mem g hf)
    rcases h g (List.mem_cons_self g rest) with hg | hg
    · have hstep : ArchiveCreator.archive_loop (g :: rest) n total acc =
          ArchiveCreator.archive_loop rest n total acc := by
        simp [ArchiveCreator.archive_loop, hg]
      rw [hstep]
      exact ih n total acc hrest
    · cases hdisk : g.on_disk with
      | false =>
        have hstep : ArchiveCreator.archive_loop (g :: rest) n total acc =
            ArchiveCreator.archive_loop rest n total acc := by
          simp [ArchiveCreator.archive_loop, hdisk]
        rw [hstep]
        exact ih n total acc hrest
      | true =>
        have hstep : ArchiveCreator.archive_loop (g :: rest) n total acc =
            ArchiveCreator.archive_loop rest n total acc := by
          simp [ArchiveCreator.archive_loop, hdisk, hg]
        rw [hstep]
        exact ih n total acc hrest

/-- The archive loop consumes an initial prefix of its candidates: what it
appends to the accumulator is exactly the list of qualifying candidates of
that prefix, in order, and the prefix is proper only when the loop broke at a
qualifying candidate whose estimate (running total plus half its size) would
exceed the total cap — after which nothing further is added. -/
lemma archive_loop_stops (cands : List ArchiveCreator.CandidateFile)
    (n total : Nat) (acc : List ArchiveCreator.CandidateFile) :
    ∃ pre suf,
      cands = pre ++ suf ∧
      (ArchiveCreator.archive_loop cands n total acc).2 =
        acc ++ pre.filter ArchiveCreator.qualifies ∧
      (suf = [] ∨ ∃ v suf2, suf = v :: suf2 ∧ ArchiveCreator.qualifies v = true ∧
        ArchiveCreator.MAX_ARCHIVE_SIZE < total +
          ArchiveCreator.size_sum (pre.filter ArchiveCreator.qualifies) + v.size / 2) := by
  induction cands generalizing n total acc with
  | nil =>
    exact ⟨[], [], rfl, by simp [ArchiveCreator.archive_loop], Or.inl rfl⟩
  | cons g rest ih =>
    by_cases h1 : g.on_disk = true
    · by_cases h2 : ArchiveCreator.MAX_ARCHIVE_SIZE < g.size
      · have hq : ArchiveCreator.qualifies g = false := by
          simp [ArchiveCreator.qualifies, h1, Nat.not_le.mpr h2]
        have hstep : ArchiveCreator.archive_loop (g :: rest) n total acc =
            ArchiveCreator.archive_loop rest n total acc := by
          simp [ArchiveCreator.archive_loop, h1, h2]
        obtain ⟨pre, suf, hsplit, hres, hbrk⟩ := ih n total acc
        have hfil : (g :: pre).filter ArchiveCreator.qualifies =
            pre.filter ArchiveCreator.qualifies := by
          simp [List.filter_cons, hq]
        refine ⟨g :: pre, suf, by rw [hsplit]; rfl, ?_, ?_⟩
        · rw [hstep, hres, hfil]
        · rcases hbrk with h | ⟨v, suf2, hsuf, hv1, hv2⟩
          · exact Or.inl h
          · exact Or.inr ⟨v, suf2, hsuf, hv1, by rw [hfil]; exact hv2⟩
      · by_cases h3 : ArchiveCreator.MAX_ARCHIVE_SIZE < total + g.size / 2
        · have hstep : ArchiveCreator.archive_loop (g :: rest) n total acc = (n, acc) := by
            simp [ArchiveCreator.archive_loop, h1, h2, h3]
          refine ⟨[], g :: rest, rfl, by rw [hstep]; simp, ?_⟩
          refine Or.inr ⟨g, rest, rfl, ?_, ?_⟩
          · simp [ArchiveCreator.qualifies, h1, Nat.le_of_not_lt h2]
          · simpa [ArchiveCreator.size_sum] using h3
        · have hq : ArchiveCreator.qualifies g = true := by
            simp [ArchiveCreator.qualifies, h1, Nat.le_of_not_lt h2]
          have hstep : ArchiveCreator.archive_loop (g :: rest) n total acc =
              ArchiveCreator.archive_loop rest (n + 1) (total + g.size) (acc ++ [g]) := by
            simp [ArchiveCreator.archive_loop, h1, h2, h3]
          obtain ⟨pre, suf, hsplit, hres, hbrk⟩ := ih (n + 1) (total + g.size) (acc ++ [g])
          have hfil : (g :: pre).filter ArchiveCreator.qualifies =
              g :: pre.filter ArchiveCreator.qualifies := by
            simp [List.filter_cons, hq]
          refine ⟨g :: pre, suf, by rw [hsplit]; rfl, ?_, ?_⟩
          · rw [hstep, hres, hfil]
            simp
          · rcases hbrk with h | ⟨v, suf2, hsuf, hv1, hv2⟩
            · exact Or.inl h
            · refine Or.inr ⟨v, suf2, hsuf, hv1, ?_⟩
              rw [hfil]
              have hsz : ArchiveCreator.size_sum (g :: pre.filter ArchiveCreator.qualifies) =
                  g.size + ArchiveCreator.size_sum (pre.filter ArchiveCreator.qualifies) := by
                simp [ArchiveCreator.size_sum]
              rw [hsz]
              omega
    · have h1' : g.on_disk = false := by
        simpa using h1
      have hq : ArchiveCreator.qualifies g = false := by
        simp [ArchiveCreator.qualifies, h1']
      have hstep : ArchiveCreator.archive_loop (g :: rest) n total acc =
          ArchiveCreator.archive_loop rest n total acc := by
        simp [ArchiveCreator.archive_loop, h1']
      obtain ⟨pre, suf, hsplit, hres, hbrk⟩ := ih n total acc
      have hfil : (g :: pre).filter ArchiveCreator.qualifies =
          pre.filter ArchiveCreator.qualifies := by
        simp [List.filter_cons, hq]
      refine ⟨g :: pre, suf, by rw [hsplit]; rfl, ?_, ?_⟩
      · rw [hstep, hres, hfil]
      · rcases hbrk with h | ⟨v, suf2, hsuf, hv1, hv2⟩
        · exact Or.inl h
        · exact Or.inr ⟨v, suf2, hsuf, hv1, by rw [hfil]; exact hv2⟩

/-- C8: whenever create_session_archive returns an archive, every file in it
was present on disk and within the per-file cap; at the moment each file was
added the conservative estimate (bytes accumulated before it plus half its
own size) did not exceed the total cap; the archive is exactly the qualifying
candidates of an initial prefix of the input, that prefix being proper only
when the loop broke at a qualifying candidate whose estimate would exceed the
total cap — so once the running estimate would exceed the cap no further file
is added; and when no candidate qualifies (each one missing or over the cap)
the result is no archive with a zero file count. -/
theorem create_session_archive_caps (file_paths : List ArchiveCreator.CandidateFile) :
    (∀ files n, ArchiveCreator.create_session_archive file_paths = (some files, n) →
      (∀ f ∈ files, f.on_disk = true ∧ f.size ≤ ArchiveCreator.MAX_ARCHIVE_SIZE) ∧
      (∀ pre f suf, files = pre ++ f :: suf →
        ArchiveCreator.size_sum pre + f.size / 2 ≤ ArchiveCreator.MAX_ARCHIVE_SIZE) ∧
      (∃ pre suf, file_paths = pre ++ suf ∧
        files = pre.filter ArchiveCreator.qualifies ∧
        (suf = [] ∨ ∃ v suf2, suf = v :: suf2 ∧ ArchiveCreator.qualifies v = true ∧
          ArchiveCreator.MAX_ARCHIVE_SIZE <
            ArchiveCreator.size_sum files + v.size / 2))) ∧
    ((∀ f ∈ file_paths, f.on_disk = false ∨ ArchiveCreator.MAX_ARCHIVE_SIZE < f.size) →
      ArchiveCreator.create_session_archive file_paths = (none, 0)) := by
  constructor
  · intro files n heq
    cases file_paths with
    | nil => simp [ArchiveCreator.create_session_archive] at heq
    | cons g rest =>
      by_cases hz : (ArchiveCreator.archive_loop (g :: rest) 0 0 []).1 = 0
      · simp [ArchiveCreator.create_session_archive, hz] at heq
      · simp only [ArchiveCreator.create_session_archive, if_neg hz] at heq
        have h2 : (ArchiveCreator.archive_loop (g :: rest) 0 0 []).2 = files := by
          have := congrArg Prod.fst heq
          simpa using this
        obtain ⟨tail, htail, hmem, hpre⟩ := archive_loop_acc (g :: rest) 0 0 []
        have hft : files = tail := by
          rw [← h2, htail]
          simp
        obtain ⟨pre, suf, hsplit, hres, hbrk⟩ := archive_loop_stops (g :: rest) 0 0 []
        have hfp : files = pre.filter ArchiveCreator.qualifies := by
          rw [← h2, hres]
          simp
        refine ⟨?_, ?_, ?_⟩
        · intro f hf
          rw [hft] at hf
          exact hmem f hf
        · intro pre2 f suf2 hdec
          rw [hft] at hdec
          have := hpre pre2 f suf2 hdec
          simpa using this
        · refine ⟨pre, suf, hsplit, hfp, ?_⟩
          rcases hbrk with h | ⟨v, suf2, hsuf, hv1, hv2⟩
          · exact Or.inl h
          · refine Or.inr ⟨v, suf2, hsuf, hv1, ?_⟩
            rw [hfp]
            simpa using hv2
  · intro hall
    cases file_paths with
    | nil => rfl
    | cons g rest =>
      have hloop := archive_loop_all_skipped (g :: rest) 0 0 [] hall
      simp [ArchiveCreator.create_session_archive, hloop]

/-- C8 witness: a single candidate above the per-file cap qualifies nowhere,
so no archive is produced and the file count is zero. -/
theorem create_session_archive_caps_witness :
    (∀ f ∈ [c8_big], f.on_disk = false ∨ ArchiveCreator.MAX_ARCHIVE_SIZE < f.size) ∧
    ArchiveCreator.create_session_archive [c8_big] = (none, 0) :=
  ⟨by decide, (create_session_archive_caps [c8_big]).2 (by decide)⟩
